import Mathlib

/-!
Shallow embedding of the write/commit core of the scorch index
(src/index/scorch/scorch.go) and of the numeric-range query validation
(src/search/query/numeric_range.go).

Machine integers: the segment-ID counter is a Go `uint64` bumped with
`atomic.AddUint64`; it is modelled as `Nat` with an explicit `% 2^64`.
Byte slices (`[]byte`) are modelled as `String`. Go maps (`Batch.IndexOps`,
`Batch.InternalOps`) are modelled as association lists with distinct keys;
iteration order of a Go map is unspecified, so every property proved below
is either order-independent or quantified over the list as given.
-/

/-- The `uint64` modulus. -/
def W : Nat := 2 ^ 64

/-- A document field (document.Field): name, value bytes, and the two
option bits the claims are about (document.IndexField, document.StoreField). -/
structure DocField where
  name : String
  value : String
  indexed : Bool
  stored : Bool
deriving DecidableEq

/-- A document (document.Document): external ID plus its fields. -/
structure Document where
  id : String
  fields : List DocField
deriving DecidableEq

/-- document.NewTextFieldCustom restricted to the data the claims touch:
name, value and the indexed/stored option bits. -/
def newTextFieldCustom (name value : String) (indexed stored : Bool) : DocField :=
  ⟨name, value, indexed, stored⟩

/-- document.Document.AddField: appends a field to the document. -/
def Document.addField (d : Document) (f : DocField) : Document :=
  { d with fields := d.fields ++ [f] }

/-- An index batch (index.Batch): IndexOps maps a document ID to a document
(upsert) or to nothing (tombstone / delete); InternalOps maps an internal
key to a value (set) or to nothing (delete). -/
structure Batch where
  indexOps : List (String × Option Document)
  internalOps : List (String × Option String)
deriving DecidableEq

/-- Modelled from the spec: an in-memory segment (package
index/scorch/segment/mem, not under src/) is "an immutable unit holding a
set of analyzed documents"; its internal document numbers are the
"segment-local, dense" positions of the documents it holds. -/
structure Segment where
  docs : List Document
deriving DecidableEq

/-- Modelled from the spec: the segment capability DocNumbers — "given a
list of external document IDs, return the set of internal document numbers
it contains for those IDs". Internal numbers are positions into the
segment's dense document list. -/
def Segment.docNumbers (s : Segment) (ids : List String) : List Nat :=
  (s.docs.enum.filter (fun p => ids.contains p.2.id)).map Prod.fst

/-- A segment as it sits in a snapshot: the segment, its ID, and the
deletion bitmap of obsoleted internal document numbers. -/
structure SegmentSnapshot where
  id : Nat
  segment : Segment
  deleted : List Nat
deriving DecidableEq

/-- The root index state (IndexSnapshot): ordered list of segment
snapshots, the internal key/value metadata, and the version counter. -/
structure IndexSnapshot where
  segment : List SegmentSnapshot
  internal : List (String × String)
  version : Nat
deriving DecidableEq

/-- A pending introduction (segmentIntroduction, scorch.go 133–140): the
fresh segment ID, the new segment, the batch's external IDs, the obsoletes
map from existing-segment ID to bitmap, and the internal deltas. The
`applied` completion channel is represented by the apply step below. -/
structure SegmentIntroduction where
  id : Nat
  data : Segment
  ids : List String
  obsoletes : List (Nat × List Nat)
  internal : List (String × Option String)
deriving DecidableEq

/-- The mutable scorch state the claims need: the segment-ID counter and
the root snapshot. -/
structure Scorch where
  nextSegmentID : Nat
  root : IndexSnapshot
deriving DecidableEq

/-- atomic.AddUint64(&s.nextSegmentID, 1): increment modulo 2^64 and
return the new value. -/
def nextSegmentId (c : Nat) : Nat := (c + 1) % W

/-- The documents of a segment that its deletion bitmap leaves visible. -/
def SegmentSnapshot.liveDocs (ss : SegmentSnapshot) : List Document :=
  (ss.segment.docs.enum.filter (fun p => !ss.deleted.contains p.1)).map Prod.snd

/-- All live external IDs of a snapshot, one occurrence per live internal
document number. -/
def IndexSnapshot.liveDocIds (snap : IndexSnapshot) : List String :=
  (snap.segment.map (fun ss => ss.liveDocs.map Document.id)).flatten

/-- How many live internal document numbers map to the external ID `d`. -/
def IndexSnapshot.liveCount (snap : IndexSnapshot) (d : String) : Nat :=
  (snap.liveDocIds.filter (fun x => x == d)).length

/-- The field the Batch loop injects: scorch.go 85,
`document.NewTextFieldCustom("_id", nil, []byte(doc.ID),
document.IndexField|document.StoreField, nil)` appended via AddField. -/
def injectId (d : Document) : Document :=
  d.addField (newTextFieldCustom ("_id") d.id true true)

/-- One iteration of the first Batch loop (scorch.go 82–90): a non-nil doc
gets the `_id` field and bumps numUpdates; every key is appended to ids. -/
def phase1Step :
    List (String × Option Document) × Nat × List String →
    String × Option Document →
    List (String × Option Document) × Nat × List String
  | acc, (docID, some doc) =>
      (acc.1 ++ [(docID, some (injectId doc))], acc.2.1 + 1, acc.2.2 ++ [docID])
  | acc, (docID, none) =>
      (acc.1 ++ [(docID, none)], acc.2.1, acc.2.2 ++ [docID])

/-- The first Batch loop (scorch.go 82–90) over the whole op list. -/
def batchPhase1 (b : Batch) : List (String × Option Document) × Nat × List String :=
  b.indexOps.foldl phase1Step ([], 0, [])

/-- The batch's ops after `_id` injection. -/
def batchPreparedOps (b : Batch) : List (String × Option Document) :=
  (batchPhase1 b).1

/-- numUpdates: the number of non-nil (upsert) documents. -/
def batchNumUpdates (b : Batch) : Nat :=
  (batchPhase1 b).2.1

/-- ids: the external IDs of every op in the batch, upserts and deletes. -/
def batchIds (b : Batch) : List String :=
  (batchPhase1 b).2.2

/-- The analysis work dispatched by the goroutine of scorch.go 94–102: one
work item per non-nil document (after `_id` injection); nil entries are
skipped. The collection loop (scorch.go 104–113) waits for exactly
numUpdates completions; results arrive in channel order, modelled here as
dispatch order (the claims proved below are order-independent). -/
def batchAnalysisWorks (b : Batch) : List Document :=
  (batchPreparedOps b).filterMap Prod.snd

/-- scorch.go 118–123: build the new segment from the complete set of
analysis results — mem.NewFromAnalyzedDocs when there are any, mem.New
(the empty segment) otherwise. (Both mem constructors are spec-modelled:
the segment holds exactly the analyzed documents, densely numbered.) -/
def batchNewSegment (b : Batch) : Segment :=
  let analysisResults := batchAnalysisWorks b
  if analysisResults.length > 0 then ⟨analysisResults⟩ else ⟨[]⟩

/-- The obsoletes loop of prepareSegment (scorch.go 142–148): one entry
per segment of the root read under the read lock, mapping the segment's ID
to its DocNumbers answer for the batch's ids. -/
def prepareIntro (root : IndexSnapshot) (id : Nat) (data : Segment)
    (ids : List String) (internalOps : List (String × Option String)) :
    SegmentIntroduction :=
  { id := id
    data := data
    ids := ids
    obsoletes :=
      root.segment.foldl (fun acc ss => acc ++ [(ss.id, ss.segment.docNumbers ids)]) []
    internal := internalOps }

/-- Union of a deletion bitmap with a newly obsoleted set. -/
def bitmapUnion (a b : List Nat) : List Nat :=
  a ++ b.filter (fun x => !a.contains x)

/-- Fold the internal key/value deltas into the snapshot metadata: a some
value sets the key, a none deletes it. -/
def applyInternal (kv : List (String × String)) (ops : List (String × Option String)) :
    List (String × String) :=
  ops.foldl
    (fun acc op =>
      match op.2 with
      | some v => (acc.filter (fun p => p.1 != op.1)) ++ [(op.1, v)]
      | none => acc.filter (fun p => p.1 != op.1))
    kv

/-- Modelled from the spec: the apply step of the single-writer
introduction loop (mainLoop, not under src/), §4.2: the new snapshot is
the previous snapshot's segments, each deletion bitmap unioned with the
obsoletion this introduction computed for it, plus the new segment
appended with a fresh empty deletion bitmap; internal deltas folded in;
version = previous + 1. -/
def applyIntro (root : IndexSnapshot) (intro : SegmentIntroduction) : IndexSnapshot :=
  { segment :=
      root.segment.map (fun ss =>
        match intro.obsoletes.lookup ss.id with
        | some delta => { ss with deleted := bitmapUnion ss.deleted delta }
        | none => ss) ++ [{ id := intro.id, segment := intro.data, deleted := [] }]
    internal := applyInternal root.internal intro.internal
    version := root.version + 1 }

/-- prepareSegment (scorch.go 129–156) composed with the apply step it
blocks on: assign the fresh segment ID, precompute obsoletes against the
current root, hand the introduction to the single-writer loop, wait for
`applied`. The Go function ends in `return nil`: the error component is
always none. -/
def prepareSegment (s : Scorch) (newSegment : Segment) (ids : List String)
    (internalOps : List (String × Option String)) : Scorch × Option String :=
  let id := nextSegmentId s.nextSegmentID
  let intro := prepareIntro s.root id newSegment ids internalOps
  ({ nextSegmentID := id, root := applyIntro s.root intro }, none)

/-- Batch (scorch.go 73–127) as one sequential pipeline: inject `_id`
fields and collect ids, dispatch and await the analyses, build the new
segment, then prepareSegment. Returns the new state and the (always nil)
error. -/
def scorchBatch (s : Scorch) (b : Batch) : Scorch × Option String :=
  prepareSegment s (batchNewSegment b) (batchIds b) b.internalOps

/-- Modelled from the spec: index.NewBatch (not under src/) — the empty
batch. -/
def newBatch : Batch := ⟨[], []⟩

/-- Go-map assignment on an association list: overwrite the key if
present, else append. -/
def mapSet [BEq α] (m : List (α × β)) (k : α) (v : β) : List (α × β) :=
  if m.any (fun p => p.1 == k) then
    m.map (fun p => if p.1 == k then (k, v) else p)
  else m ++ [(k, v)]

/-- Modelled from the spec: index.Batch.Update — IndexOps[doc.ID] = doc. -/
def Batch.update (b : Batch) (d : Document) : Batch :=
  { b with indexOps := mapSet b.indexOps d.id (some d) }

/-- Modelled from the spec: index.Batch.Delete — IndexOps[id] = nil. -/
def Batch.delete (b : Batch) (id : String) : Batch :=
  { b with indexOps := mapSet b.indexOps id none }

/-- Modelled from the spec: index.Batch.SetInternal. -/
def Batch.setInternal (b : Batch) (k v : String) : Batch :=
  { b with internalOps := mapSet b.internalOps k (some v) }

/-- Modelled from the spec: index.Batch.DeleteInternal. -/
def Batch.deleteInternal (b : Batch) (k : String) : Batch :=
  { b with internalOps := mapSet b.internalOps k none }

/-- Scorch.Update (scorch.go 60–64): fresh batch, one upsert, Batch. -/
def scorchUpdate (s : Scorch) (d : Document) : Scorch × Option String :=
  scorchBatch s (newBatch.update d)

/-- Scorch.Delete (scorch.go 66–70): fresh batch, one tombstone, Batch. -/
def scorchDelete (s : Scorch) (id : String) : Scorch × Option String :=
  scorchBatch s (newBatch.delete id)

/-- Scorch.SetInternal (scorch.go 158–162). -/
def scorchSetInternal (s : Scorch) (k v : String) : Scorch × Option String :=
  scorchBatch s (newBatch.setInternal k v)

/-- Scorch.DeleteInternal (scorch.go 164–168). -/
def scorchDeleteInternal (s : Scorch) (k : String) : Scorch × Option String :=
  scorchBatch s (newBatch.deleteInternal k)

/-- Closed form of the first Batch loop for any starting accumulator. -/
theorem foldl_phase1Step (l : List (String × Option Document))
    (a : List (String × Option Document) × Nat × List String) :
    l.foldl phase1Step a =
      (a.1 ++ l.map (fun p => (p.1, p.2.map injectId)),
       a.2.1 + (l.filter (fun p => p.2.isSome)).length,
       a.2.2 ++ l.map Prod.fst) := by
  induction l generalizing a with
  | nil => simp
  | cons hd tl ih =>
    obtain ⟨k, od⟩ := hd
    cases od with
    | none =>
      simp [List.foldl_cons, phase1Step, ih, List.filter_cons]
    | some d =>
      simp [List.foldl_cons, phase1Step, ih, List.filter_cons]
      omega

/-- The prepared ops are the input ops with `_id` injected into upserts. -/
theorem batchPreparedOps_eq (b : Batch) :
    batchPreparedOps b = b.indexOps.map (fun p => (p.1, p.2.map injectId)) := by
  simp [batchPreparedOps, batchPhase1, foldl_phase1Step]

/-- numUpdates counts exactly the non-nil (upsert) entries. -/
theorem batchNumUpdates_eq (b : Batch) :
    batchNumUpdates b = (b.indexOps.filter (fun p => p.2.isSome)).length := by
  simp [batchNumUpdates, batchPhase1, foldl_phase1Step]

/-- ids collects every op key, upserts and deletes alike, in order. -/
theorem batchIds_eq (b : Batch) : batchIds b = b.indexOps.map Prod.fst := by
  simp [batchIds, batchPhase1, foldl_phase1Step]

/-- Folding appends of images is just map. -/
theorem foldl_append_map (l : List α) (f : α → β) (a : List β) :
    l.foldl (fun acc x => acc ++ [f x]) a = a ++ l.map f := by
  induction l generalizing a with
  | nil => simp
  | cons hd tl ih => simp [ih]

/-- Closed form of the obsoletes loop of prepareSegment. -/
theorem prepareIntro_obsoletes (root : IndexSnapshot) (id : Nat) (data : Segment)
    (ids : List String) (ops : List (String × Option String)) :
    (prepareIntro root id data ids ops).obsoletes =
      root.segment.map (fun ss => (ss.id, ss.segment.docNumbers ids)) := by
  simpa [prepareIntro] using
    foldl_append_map root.segment (fun ss => (ss.id, ss.segment.docNumbers ids)) []

/-- Looking a segment's ID up in the obsoletes association list built over
segments with pairwise distinct IDs finds that segment's value. -/
theorem lookup_map_idkey {α : Type} (l : List SegmentSnapshot) (v : SegmentSnapshot → α)
    (h : (l.map SegmentSnapshot.id).Nodup) (ss : SegmentSnapshot) (hss : ss ∈ l) :
    (l.map (fun t => (t.id, v t))).lookup ss.id = some (v ss) := by
  induction l with
  | nil => cases hss
  | cons hd tl ih =>
    rcases List.mem_cons.mp hss with h1 | h1
    · subst h1
      simp [List.lookup]
    · have hmem : ss.id ∈ tl.map SegmentSnapshot.id :=
        List.mem_map_of_mem SegmentSnapshot.id h1
      rw [List.map_cons] at h
      have hnd := List.nodup_cons.mp h
      have hne : (ss.id == hd.id) = false := by
        refine beq_eq_false_iff_ne.mpr ?_
        intro he
        exact hnd.1 (he ▸ hmem)
      simp [List.lookup, hne]
      exact ih hnd.2 h1

/-- NumericRangeQuery (numeric_range.go 21–28). Min/Max are `*float64`,
modelled as `Option Float`; Validate never reads the float values. -/
structure NumericRangeQuery where
  min : Option Float
  max : Option Float
  inclusiveMin : Option Bool
  inclusiveMax : Option Bool
  field : String
  boost : Option Float

/-- NewNumericRangeInclusiveQuery (numeric_range.go 43–50). -/
def newNumericRangeInclusiveQuery (min max : Option Float)
    (minInclusive maxInclusive : Option Bool) : NumericRangeQuery :=
  ⟨min, max, minInclusive, maxInclusive, "", none⟩

/-- NewNumericRangeQuery (numeric_range.go 35–37). -/
def newNumericRangeQuery (min max : Option Float) : NumericRangeQuery :=
  newNumericRangeInclusiveQuery min max none none

/-- Validate (numeric_range.go 69–74): `if q.Min == nil && q.Min == q.Max`.
Under the first conjunct Min is nil, so the pointer comparison
`q.Min == q.Max` holds exactly when Max is nil too. -/
def NumericRangeQuery.validate (q : NumericRangeQuery) : Option String :=
  if q.min.isNone && q.max.isNone then
    some ("numeric range query must specify min or max")
  else none

/-- The works list has as many elements as there are upsert entries. -/
theorem filterMap_snd_length (l : List (String × Option Document)) :
    (l.filterMap Prod.snd).length = (l.filter (fun p => p.2.isSome)).length := by
  induction l with
  | nil => rfl
  | cons hd tl ih =>
    obtain ⟨k, od⟩ := hd
    cases od <;> simp [List.filterMap_cons, List.filter_cons, ih]

/-- The analysis works are exactly the injected upsert documents. -/
theorem batchAnalysisWorks_eq (b : Batch) :
    batchAnalysisWorks b = (b.indexOps.filterMap Prod.snd).map injectId := by
  rw [batchAnalysisWorks, batchPreparedOps_eq, List.filterMap_map, List.map_filterMap]
  rfl

/-- The new segment always holds exactly the analysis results. -/
theorem batchNewSegment_docs (b : Batch) :
    (batchNewSegment b).docs = batchAnalysisWorks b := by
  by_cases h : (batchAnalysisWorks b).length > 0
  · simp [batchNewSegment, h]
  · have h0 : (batchAnalysisWorks b).length = 0 := by omega
    have he : batchAnalysisWorks b = [] := List.length_eq_zero.mp h0
    simp [batchNewSegment, he]

/-- C5: for every non-nil (upsert) document of a batch, before dispatch a
reserved field named "_id" holding the document's external ID, indexed and
stored, is appended to the document; tombstone (nil) entries get no field
and generate no analysis work. -/
theorem batch_injects_id_field (b : Batch) :
    batchPreparedOps b =
      b.indexOps.map
        (fun p => (p.1, p.2.map (fun d =>
          d.addField (newTextFieldCustom ("_id") d.id true true)))) ∧
    batchAnalysisWorks b =
      (b.indexOps.filterMap Prod.snd).map
        (fun d => d.addField (newTextFieldCustom ("_id") d.id true true)) := by
  exact ⟨batchPreparedOps_eq b, batchAnalysisWorks_eq b⟩

/-- C6: the number of completions Batch waits for (numUpdates) is exactly
the number of non-nil documents, the dispatched analysis works number
exactly that many, the new segment is built from that complete result set,
and internal-metadata ops generate no analysis work. -/
theorem batch_exact_completion_count (b : Batch) :
    batchNumUpdates b = (b.indexOps.filter (fun p => p.2.isSome)).length ∧
    (batchAnalysisWorks b).length = batchNumUpdates b ∧
    (batchNewSegment b).docs = batchAnalysisWorks b ∧
    (∀ ops i1 i2, batchAnalysisWorks ⟨ops, i1⟩ = batchAnalysisWorks ⟨ops, i2⟩) := by
  refine ⟨batchNumUpdates_eq b, ?_, batchNewSegment_docs b, fun ops i1 i2 => rfl⟩
  rw [batchAnalysisWorks_eq, List.length_map, filterMap_snd_length, batchNumUpdates_eq]

/-- C9: Validate errors exactly when neither bound is set; whenever at
least one of Min or Max is non-nil it returns nil. -/
theorem numericRange_validate_iff (q : NumericRangeQuery) :
    (q.validate).isSome ↔ (q.min = none ∧ q.max = none) := by
  cases hm : q.min <;> cases hx : q.max <;>
    simp [NumericRangeQuery.validate, hm, hx]

/-- The one-element batch the spec describes for Update: a single upsert
of the document under its own ID. -/
def singletonUpsertBatch (d : Document) : Batch := ⟨[(d.id, some d)], []⟩

/-- The one-element batch the spec describes for Delete: one tombstone. -/
def singletonDeleteBatch (id : String) : Batch := ⟨[(id, none)], []⟩

/-- The one-element batch the spec describes for SetInternal. -/
def singletonSetInternalBatch (k v : String) : Batch := ⟨[], [(k, some v)]⟩

/-- The one-element batch the spec describes for DeleteInternal. -/
def singletonDeleteInternalBatch (k : String) : Batch := ⟨[], [(k, none)]⟩

/-- C10: each single-operation wrapper returns the same result and
produces the same index effect as Batch on the corresponding one-element
batch. -/
theorem single_op_wrappers_eq_batch (s : Scorch) (d : Document) (docId k v : String) :
    scorchUpdate s d = scorchBatch s (singletonUpsertBatch d) ∧
    scorchDelete s docId = scorchBatch s (singletonDeleteBatch docId) ∧
    scorchSetInternal s k v = scorchBatch s (singletonSetInternalBatch k v) ∧
    scorchDeleteInternal s k = scorchBatch s (singletonDeleteInternalBatch k) := by
  refine ⟨?_, ?_, ?_, ?_⟩ <;> rfl

/-- C3: the pending introduction's obsoletes map holds exactly one entry
per segment of the root snapshot at precomputation time, mapping that
segment's ID to the segment's DocNumbers answer for the batch's full id
list — the IDs of every upsert and every delete in the batch. -/
theorem obsoletes_map_content (root : IndexSnapshot) (segid : Nat) (b : Batch)
    (h : (root.segment.map SegmentSnapshot.id).Nodup) :
    (prepareIntro root segid (batchNewSegment b) (batchIds b)
        b.internalOps).obsoletes.length = root.segment.length ∧
    (∀ ss ∈ root.segment,
      (prepareIntro root segid (batchNewSegment b) (batchIds b)
          b.internalOps).obsoletes.lookup ss.id
        = some (ss.segment.docNumbers (batchIds b))) ∧
    batchIds b = b.indexOps.map Prod.fst := by
  refine ⟨?_, ?_, batchIds_eq b⟩
  · rw [prepareIntro_obsoletes]
    simp
  · intro ss hss
    rw [prepareIntro_obsoletes]
    exact lookup_map_idkey root.segment
      (fun t => t.segment.docNumbers (batchIds b)) h ss hss

/-- First witness segment: ID 1, documents "a" (number 0) and "b" (1). -/
def witRootSegA : SegmentSnapshot := ⟨1, ⟨[⟨"a", []⟩, ⟨"b", []⟩]⟩, []⟩

/-- Second witness segment: ID 2, document "b" (number 0). -/
def witRootSegB : SegmentSnapshot := ⟨2, ⟨[⟨"b", []⟩]⟩, []⟩

/-- A concrete two-segment root. -/
def witRoot : IndexSnapshot := ⟨[witRootSegA, witRootSegB], [], 3⟩

/-- A concrete batch with one upsert ("b") and one delete ("c"). -/
def witBatch : Batch := ⟨[("b", some ⟨"b", []⟩), ("c", none)], []⟩

/-- Witness for C3 at the concrete root and batch. -/
theorem obsoletes_map_content_witness :
    (witRoot.segment.map SegmentSnapshot.id).Nodup ∧
    (prepareIntro witRoot 7 (batchNewSegment witBatch) (batchIds witBatch)
        witBatch.internalOps).obsoletes.lookup witRootSegA.id
      = some (witRootSegA.segment.docNumbers (batchIds witBatch)) ∧
    witRootSegA.segment.docNumbers (batchIds witBatch) = [1] := by
  refine ⟨by decide, ?_, by decide⟩
  exact (obsoletes_map_content witRoot 7 witBatch (by decide)).2.1
    witRootSegA (by decide)

/-- The counter after k assignments, starting from a fresh index. -/
def counterAfter : Nat → Nat
  | 0 => 0
  | k + 1 => nextSegmentId (counterAfter k)

/-- The segment ID handed to the (k+1)-st introduction of the index's
lifetime. -/
def segIdAt (k : Nat) : Nat := counterAfter (k + 1)

/-- Below the uint64 modulus the counter is just the assignment count. -/
theorem counterAfter_eq (k : Nat) (h : k < W) : counterAfter k = k := by
  induction k with
  | zero => rfl
  | succ n ih =>
    have hn : n < W := by omega
    rw [counterAfter, ih hn, nextSegmentId, Nat.mod_eq_of_lt h]

/-- C8: every introduction gets its ID from one increment of the counter
(the new segment spliced into the root carries exactly that fresh ID), and
over the index's lifetime (any run of fewer than 2^64 assignments — the
uint64 counter wraps only beyond that) assigned IDs strictly increase, so
none is reused and none decreases. -/
theorem segment_ids_strictly_increasing :
    (∀ s seg ids ops,
      (prepareSegment s seg ids ops).1.nextSegmentID
        = nextSegmentId s.nextSegmentID) ∧
    (∀ s seg ids ops,
      (prepareSegment s seg ids ops).1.root.segment.getLast?
        = some ⟨nextSegmentId s.nextSegmentID, seg, []⟩) ∧
    (∀ i j, i < j → j + 1 < W → segIdAt i < segIdAt j) := by
  refine ⟨fun s seg ids ops => rfl, ?_, ?_⟩
  · intro s seg ids ops
    simp [prepareSegment, applyIntro, prepareIntro]
  · intro i j hij hj
    have hi : i + 1 < W := by omega
    rw [segIdAt, segIdAt, counterAfter_eq (i + 1) hi, counterAfter_eq (j + 1) hj]
    omega

/-- Witness for C8 at the first two assignments. -/
theorem segment_ids_strictly_increasing_witness :
    0 < 1 ∧ 1 + 1 < W ∧ segIdAt 0 < segIdAt 1 := by
  refine ⟨Nat.one_pos, by norm_num [W], ?_⟩
  exact segment_ids_strictly_increasing.2.2 0 1 (by norm_num) (by norm_num [W])

/-- The lock-relevant events of prepareSegment, in program order. -/
inductive LockEv where
  | rlock : LockEv
  | query : Nat → LockEv
  | runlock : LockEv
  | send : LockEv
  | waitApplied : LockEv
deriving DecidableEq

/-- One event's effect on the number of read locks held. -/
def lockStep (n : Nat) (e : LockEv) : Nat :=
  match e with
  | LockEv.rlock => n + 1
  | LockEv.runlock => n - 1
  | _ => n

/-- Read locks held after a list of events. -/
def readLocksHeld (t : List LockEv) : Nat := t.foldl lockStep 0

/-- Program-order event trace of prepareSegment (scorch.go 142–153):
RLock, then one DocNumbers point query per segment of the root, then
RUnlock, then the channel send and the wait on the applied signal. -/
def prepareSegmentTrace (root : IndexSnapshot) : List LockEv :=
  [LockEv.rlock]
    ++ root.segment.map (fun ss => LockEv.query ss.id)
    ++ [LockEv.runlock, LockEv.send, LockEv.waitApplied]

/-- The discipline claimed for one root: every per-segment DocNumbers
query executes with no lock held. -/
def queriesOutsideLock (root : IndexSnapshot) : Prop :=
  ∀ i sid, (prepareSegmentTrace root).get? i = some (LockEv.query sid) →
    readLocksHeld ((prepareSegmentTrace root).take i) = 0

/-- A concrete root with a single segment (ID 5) holding document "a". -/
def oneSegRoot : IndexSnapshot := ⟨[⟨5, ⟨[⟨"a", []⟩]⟩, []⟩], [], 0⟩

/-- C2 as stated fails: at oneSegRoot the DocNumbers query (trace
position 1) executes with the read lock held, not lock-free. -/
theorem queries_not_outside_lock : queriesOutsideLock oneSegRoot = False := by
  apply eq_false
  intro h
  exact absurd (h 1 5 (by decide)) (by decide)

/-- A run of query events leaves the lock count unchanged. -/
theorem foldl_lockStep_queries (l : List LockEv)
    (h : ∀ e ∈ l, ∃ sid, e = LockEv.query sid) (n : Nat) :
    l.foldl lockStep n = n := by
  induction l generalizing n with
  | nil => rfl
  | cons hd tl ih =>
    obtain ⟨sid, rfl⟩ := h hd (List.mem_cons_self hd tl)
    exact ih (fun e he => h e (List.mem_cons_of_mem _ he)) n

/-- C2 (amended): every per-segment DocNumbers query of prepareSegment
executes while exactly the one shared read lock is held (so concurrent
batches can still precompute in parallel), and the lock is released —
count back to zero — at the position where the introduction is sent to
the single-writer loop. -/
theorem queries_under_shared_rlock (root : IndexSnapshot) :
    (∀ i sid, (prepareSegmentTrace root).get? i = some (LockEv.query sid) →
      readLocksHeld ((prepareSegmentTrace root).take i) = 1) ∧
    (prepareSegmentTrace root).get? (root.segment.length + 2)
      = some LockEv.send ∧
    readLocksHeld ((prepareSegmentTrace root).take (root.segment.length + 2))
      = 0 := by
  have hq : ∀ e ∈ root.segment.map (fun ss => LockEv.query ss.id),
      ∃ s2, e = LockEv.query s2 := by
    intro e he
    obtain ⟨ss, _, rfl⟩ := List.mem_map.mp he
    exact ⟨ss.id, rfl⟩
  refine ⟨?_, ?_, ?_⟩
  · rintro (_ | j) sid hi
    · simp [prepareSegmentTrace] at hi
    · have hget : ((root.segment.map (fun ss => LockEv.query ss.id))
          ++ [LockEv.runlock, LockEv.send, LockEv.waitApplied]).get? j
          = some (LockEv.query sid) := by
        simpa [prepareSegmentTrace] using hi
      have hjlt : j < (root.segment.map (fun ss => LockEv.query ss.id)).length := by
        by_contra hge
        push_neg at hge
        rw [List.get?_append_right hge] at hget
        have hmem := List.get?_mem hget
        simp at hmem
      have htake : (prepareSegmentTrace root).take (j + 1)
          = LockEv.rlock ::
            (root.segment.map (fun ss => LockEv.query ss.id)).take j := by
        have hle : j ≤ (root.segment.map (fun ss => LockEv.query ss.id)).length :=
          le_of_lt hjlt
        simp [prepareSegmentTrace, List.take_append_of_le_length hle]
      rw [htake]
      have hrun : ((root.segment.map (fun ss => LockEv.query ss.id)).take j).foldl
          lockStep 1 = 1 :=
        foldl_lockStep_queries _
          (fun e he => hq e (List.take_subset j _ he)) 1
      simpa [readLocksHeld, lockStep] using hrun
  · have : (prepareSegmentTrace root).get? (root.segment.length + 2)
        = ((root.segment.map (fun ss => LockEv.query ss.id))
            ++ [LockEv.runlock, LockEv.send, LockEv.waitApplied]).get?
            (root.segment.length + 1) := by
      simp [prepareSegmentTrace]
    rw [this, List.get?_append_right (by simp)]
    simp
  · have htake : (prepareSegmentTrace root).take (root.segment.length + 2)
        = LockEv.rlock ::
          ((root.segment.map (fun ss => LockEv.query ss.id)) ++ [LockEv.runlock]) := by
      have h1 : (root.segment.map (fun ss => LockEv.query ss.id)).length + 1
          = root.segment.length + 1 := by simp
      simp only [prepareSegmentTrace, List.singleton_append, List.cons_append,
        List.nil_append]
      rw [show root.segment.length + 2 = (root.segment.length + 1) + 1 from rfl,
        List.take_succ_cons, ← h1, List.take_append]
      rfl
    rw [htake]
    have hrun : ((root.segment.map (fun ss => LockEv.query ss.id))).foldl
        lockStep 1 = 1 :=
      foldl_lockStep_queries _ hq 1
    simp [readLocksHeld, List.foldl_append, lockStep, hrun]

/-- Witness for the amended C2 at the concrete one-segment root. -/
theorem queries_under_shared_rlock_witness :
    (prepareSegmentTrace oneSegRoot).get? 1 = some (LockEv.query 5) ∧
    readLocksHeld ((prepareSegmentTrace oneSegRoot).take 1) = 1 := by
  refine ⟨by decide, ?_⟩
  exact (queries_under_shared_rlock oneSegRoot).1 1 5 (by decide)

/-- DocNumbers of the empty id list is empty: nothing can obsolete. -/
theorem docNumbers_nil (s : Segment) : s.docNumbers [] = [] := by
  simp [Segment.docNumbers]

/-- A value found by lookup is a value stored in the association list. -/
theorem lookup_val_mem {β : Type} (l : List (Nat × β)) (k : Nat) (v : β)
    (h : l.lookup k = some v) : ∃ k2, (k2, v) ∈ l := by
  induction l with
  | nil => simp [List.lookup] at h
  | cons hd tl ih =>
    obtain ⟨a, b⟩ := hd
    cases hba : (k == a) with
    | true =>
      simp [List.lookup, hba] at h
      exact ⟨a, by simp [h]⟩
    | false =>
      simp [List.lookup, hba] at h
      obtain ⟨k2, hk2⟩ := ih h
      exact ⟨k2, List.mem_cons_of_mem _ hk2⟩

/-- Applying an introduction whose obsoletes bitmaps are all empty and
whose segment is empty leaves the live document set unchanged. -/
theorem applyIntro_all_empty_obsoletes (root : IndexSnapshot)
    (intro : SegmentIntroduction)
    (hobs : ∀ p ∈ intro.obsoletes, p.2 = ([] : List Nat))
    (hdata : intro.data = ⟨[]⟩) :
    (applyIntro root intro).liveDocIds = root.liveDocIds := by
  have hpt : ∀ ss ∈ root.segment,
      (match intro.obsoletes.lookup ss.id with
        | some delta => { ss with deleted := bitmapUnion ss.deleted delta }
        | none => ss) = ss := by
    intro ss _
    cases hl : intro.obsoletes.lookup ss.id with
    | none => rfl
    | some delta =>
      obtain ⟨k2, hk2⟩ := lookup_val_mem _ _ _ hl
      have hd0 : delta = [] := hobs (k2, delta) hk2
      subst hd0
      simp [bitmapUnion]
  have hseg : root.segment.map (fun ss =>
      match intro.obsoletes.lookup ss.id with
      | some delta => { ss with deleted := bitmapUnion ss.deleted delta }
      | none => ss) = root.segment := by
    rw [List.map_congr_left hpt, List.map_id']
  simp only [applyIntro, IndexSnapshot.liveDocIds, hseg, List.map_append,
    List.flatten_append, hdata]
  simp [SegmentSnapshot.liveDocs]

/-- C7 (amended): a batch with zero upserts builds the empty in-memory
segment, consumes a fresh segment ID and yields a new snapshot version;
if moreover it carries no document ops at all (a pure-internal or fully
empty batch), the visible document set is unchanged. (A pure-deletion
batch also has zero upserts but does change the visible set.) -/
theorem empty_batch_behavior (s : Scorch) (b : Batch)
    (h : batchNumUpdates b = 0) :
    batchNewSegment b = ⟨[]⟩ ∧
    (scorchBatch s b).1.nextSegmentID = nextSegmentId s.nextSegmentID ∧
    (scorchBatch s b).1.root.version = s.root.version + 1 ∧
    (b.indexOps = [] → (scorchBatch s b).1.root.liveDocIds = s.root.liveDocIds) := by
  have hlen : (batchAnalysisWorks b).length = 0 := by
    rw [batchAnalysisWorks_eq, List.length_map, filterMap_snd_length]
    rw [batchNumUpdates_eq] at h
    exact h
  have hworks : batchAnalysisWorks b = [] := List.length_eq_zero.mp hlen
  have hseg : batchNewSegment b = ⟨[]⟩ := by
    simp [batchNewSegment, hworks]
  refine ⟨hseg, rfl, rfl, ?_⟩
  intro hops
  have hids : batchIds b = [] := by
    rw [batchIds_eq, hops]
    rfl
  show (applyIntro s.root (prepareIntro s.root (nextSegmentId s.nextSegmentID)
      (batchNewSegment b) (batchIds b) b.internalOps)).liveDocIds
      = s.root.liveDocIds
  apply applyIntro_all_empty_obsoletes
  · intro p hp
    rw [prepareIntro_obsoletes] at hp
    obtain ⟨ss, _, rfl⟩ := List.mem_map.mp hp
    rw [hids]
    exact docNumbers_nil ss.segment
  · exact hseg

/-- Witness for the amended C7: a pure-internal one-op batch against a
fresh index. -/
theorem empty_batch_behavior_witness :
    batchNumUpdates ⟨[], [("k", some ("v"))]⟩ = 0 ∧
    (scorchBatch ⟨0, ⟨[], [], 0⟩⟩ ⟨[], [("k", some ("v"))]⟩).1.root.version
      = (⟨[], [], 0⟩ : IndexSnapshot).version + 1 ∧
    (scorchBatch ⟨0, ⟨[], [], 0⟩⟩ ⟨[], [("k", some ("v"))]⟩).1.root.liveDocIds
      = (⟨[], [], 0⟩ : IndexSnapshot).liveDocIds := by
  refine ⟨by decide, ?_, ?_⟩
  · exact (empty_batch_behavior ⟨0, ⟨[], [], 0⟩⟩ ⟨[], [("k", some ("v"))]⟩
      (by decide)).2.2.1
  · exact (empty_batch_behavior ⟨0, ⟨[], [], 0⟩⟩ ⟨[], [("k", some ("v"))]⟩
      (by decide)).2.2.2 rfl

/-- A root with one live document "a" in its single segment. -/
def delRoot : IndexSnapshot := ⟨[⟨1, ⟨[⟨"a", []⟩]⟩, []⟩], [], 1⟩

/-- The index state holding delRoot. -/
def delScorch : Scorch := ⟨1, delRoot⟩

/-- A pure-deletion batch: one tombstone for "a", zero upserts. -/
def delBatch : Batch := ⟨[("a", none)], []⟩

/-- C7 as stated fails: this zero-upsert (pure-deletion) batch changes
the visible document set — "a" was live before and is not after. -/
theorem pure_deletion_changes_live_set :
    batchNumUpdates delBatch = 0 ∧
    delScorch.root.liveDocIds = ["a"] ∧
    (scorchBatch delScorch delBatch).1.root.liveDocIds = [] ∧
    ((scorchBatch delScorch delBatch).1.root.liveDocIds
      = delScorch.root.liveDocIds) = False := by
  refine ⟨by decide, by decide, by decide, eq_false (by decide)⟩

/-- The first racing document: an upsert of "a" with text "x". -/
def docA1 : Document := ⟨"a", [⟨"text", "x", true, false⟩]⟩

/-- The second racing document: a newer upsert of "a" with text "y". -/
def docA2 : Document := ⟨"a", [⟨"text", "y", true, false⟩]⟩

/-- First racing batch: upsert "a". -/
def raceBatch1 : Batch := ⟨[("a", some docA1)], []⟩

/-- Second racing batch: upsert "a" again. -/
def raceBatch2 : Batch := ⟨[("a", some docA2)], []⟩

/-- The root both submitters read: the initial empty snapshot. -/
def raceRoot0 : IndexSnapshot := ⟨[], [], 0⟩

/-- The first submitter's introduction: obsoletes precomputed against
raceRoot0 under the shared read lock (scorch.go 142–148); the atomic
counter hands it segment ID 1. -/
def raceIntro1 : SegmentIntroduction :=
  prepareIntro raceRoot0 1 (batchNewSegment raceBatch1) (batchIds raceBatch1) []

/-- The second submitter's introduction: because the obsoletes
precomputation runs under a shared (not exclusive) lock before entering
the single-writer queue, this submitter can also read raceRoot0 before
the first introduction is applied; the counter hands it segment ID 2. -/
def raceIntro2 : SegmentIntroduction :=
  prepareIntro raceRoot0 2 (batchNewSegment raceBatch2) (batchIds raceBatch2) []

/-- The snapshot after the single-writer loop applies both introductions
in submission order. -/
def raceFinal : IndexSnapshot :=
  applyIntro (applyIntro raceRoot0 raceIntro1) raceIntro2

/-- C1 fails on the code: after the two racing batches are applied in
submission order, two live internal document numbers map to "a" — the
second introduction's obsoletes were computed against the stale root, so
the first segment's copy of "a" is never marked deleted. -/
theorem uniqueness_violated_by_stale_obsoletes :
    raceFinal.liveCount ("a") = 2 := by
  decide

/-- Outcome of the commit phase of a Batch call. -/
inductive BatchOutcome where
  | returned : Option String → BatchOutcome
  | blocked : BatchOutcome
deriving DecidableEq

/-- prepareSegment (scorch.go 150–155) sends the introduction on the
unbuffered introductions channel without selecting on closeCh, then waits
on the applied signal; its only return statement is `return nil`.
Modelled from the spec: the introduction loop "exits when the engine is
closed" (§4.2 Termination), so after Close there is no receiver and the
send blocks forever; while the loop runs, the send and wait complete and
the call returns nil. -/
def prepareSegmentOutcome (loopRunning : Bool) : BatchOutcome :=
  if loopRunning then BatchOutcome.returned none else BatchOutcome.blocked

/-- C4 fails on the code: a batch submitted after Close blocks forever
instead of returning an error; moreover no execution path of Batch can
return an error at all — any returned value is nil, and the embedded
Batch's error component is always none. -/
theorem close_leaves_batch_blocked :
    prepareSegmentOutcome false = BatchOutcome.blocked ∧
    (∀ running msg, prepareSegmentOutcome running = BatchOutcome.returned msg →
      msg = none) ∧
    (∀ s b, (scorchBatch s b).2 = none) := by
  refine ⟨rfl, ?_, fun s b => rfl⟩
  intro running msg h
  cases running with
  | false => simp [prepareSegmentOutcome] at h
  | true =>
    simp [prepareSegmentOutcome] at h
    exact h.symm

/-- Witness for C4's theorem at a running loop and a concrete batch. -/
theorem close_leaves_batch_blocked_witness :
    prepareSegmentOutcome true = BatchOutcome.returned none ∧
    (none : Option String) = none ∧
    (scorchBatch delScorch delBatch).2 = none := by
  refine ⟨rfl, ?_, ?_⟩
  · exact close_leaves_batch_blocked.2.1 true none rfl
  · exact close_leaves_batch_blocked.2.2 delScorch delBatch
